import Mathlib

/-!
# Verification of the i18n-iso-countries core module

A shallow embedding of `src/core.ts` (ISO 3166-1 country-code lookup and
localized-name registry).  JavaScript strings are modelled as `List Char`
(`JStr`); JavaScript objects (string-keyed, insertion-ordered maps) are
modelled as association lists; `undefined` results are `Option.none`.
Case mapping is the ASCII mapping of `Char.toUpper` and `Char.toLower`,
matching the JS behaviour on the ASCII code points the library uses.

The static code table `codes.json` is not part of the sources; every
function that consults it takes the table as an explicit parameter
(`codes : List CodeEntry`), mirroring the module-level JSON data.
-/

set_option autoImplicit false

namespace Iso

/-- JavaScript string, modelled as its list of characters. -/
abbrev JStr := List Char

/-- Coerce a Lean string literal to the `JStr` model. -/
def str (s : String) : JStr := s.data

/-- JS `s.toUpperCase()` (ASCII fragment). -/
def toUpperJS (s : JStr) : JStr := s.map Char.toUpper

/-- JS `s.toLowerCase()` (ASCII fragment). -/
def toLowerJS (s : JStr) : JStr := s.map Char.toLower

/-- JS `/^[0-9]*$/.test(s)`: every character is an ASCII digit. -/
def isAllDigits (s : JStr) : Bool := s.all Char.isDigit

/-- One `[alpha2, alpha3, numeric]` triple of the static code table. -/
structure CodeEntry where
  a2 : JStr
  a3 : JStr
  num : JStr
  deriving DecidableEq

/-- `CountryName` from core.ts: a single name or an ordered list of names. -/
inductive CountryName where
  | single (s : JStr)
  | many (l : List JStr)
  deriving DecidableEq

/-- JS truthiness of a `CountryName` value: only the empty string is falsy
(an array, even empty, is truthy). -/
def falsyCountryName : CountryName → Bool
  | .single s => s.isEmpty
  | .many _ => false

/-- A locale's `countries` object: insertion-ordered map Alpha-2 → names. -/
abbrev LocalizedCountryNames := List (JStr × CountryName)

/-- The registry `_registeredLocales`: insertion-ordered map tag → countries. -/
abbrev Registry := List (JStr × LocalizedCountryNames)

/-- JS property read `o[k]` on an object modelled as an association list. -/
def objGet {V : Type} (o : List (JStr × V)) (k : JStr) : Option V :=
  (o.find? (fun p => p.1 == k)).map (fun p => p.2)

/-- JS `{...o, [k]: v}`: an existing key keeps its insertion position and is
re-bound to `v`; a fresh key is appended. -/
def objSet {V : Type} (o : List (JStr × V)) (k : JStr) (v : V) : List (JStr × V) :=
  if o.any (fun p => p.1 == k) then
    o.map (fun p => if p.1 == k then (k, v) else p)
  else
    o ++ [(k, v)]

/-- Input to `numericToAlpha2`/`numericToAlpha3` (`number | string`, with
`null`/`undefined` reaching `formatNumericCode` as `""` via `code ?? ""`). -/
inductive NumInput where
  | nstr (s : JStr)
  | nnum (n : Int)
  | nnull
  deriving DecidableEq

/-- JS `String(code ?? "")` for a `NumInput`. -/
def numInputStr : NumInput → JStr
  | .nstr s => s
  | .nnum n => (toString n).data
  | .nnull => []

/-- JS `l.slice(-3)` for a list of length at least 3. -/
def takeRight3 (l : JStr) : JStr := l.drop (l.length - 3)

/-- core.ts `formatNumericCode`: `("000" + String(code ?? "")).slice(-3)`. -/
def formatNumericCode (code : NumInput) : JStr :=
  takeRight3 (str "000" ++ numInputStr code)

/-- core.ts `alpha2ToAlpha3`: find the entry keyed by the upper-cased
alpha-2 code. -/
def alpha2ToAlpha3 (codes : List CodeEntry) (code : JStr) : Option JStr :=
  (codes.find? (fun e => e.a2 == toUpperJS code)).map (fun e => e.a3)

/-- core.ts `alpha3ToAlpha2`: find the entry keyed by the upper-cased
alpha-3 code. -/
def alpha3ToAlpha2 (codes : List CodeEntry) (code : JStr) : Option JStr :=
  (codes.find? (fun e => e.a3 == toUpperJS code)).map (fun e => e.a2)

/-- core.ts `alpha2ToNumeric`. -/
def alpha2ToNumeric (codes : List CodeEntry) (code : JStr) : Option JStr :=
  (codes.find? (fun e => e.a2 == toUpperJS code)).map (fun e => e.num)

/-- core.ts `numericToAlpha2`: pad the input to 3 characters, then find the
entry with that numeric code. -/
def numericToAlpha2 (codes : List CodeEntry) (code : NumInput) : Option JStr :=
  (codes.find? (fun e => e.num == formatNumericCode code)).map (fun e => e.a2)

/-- core.ts `numericToAlpha3`: via `numericToAlpha2` then `alpha2ToAlpha3`. -/
def numericToAlpha3 (codes : List CodeEntry) (code : NumInput) : Option JStr :=
  match numericToAlpha2 codes code with
  | some a2 => if a2.isEmpty then none else alpha2ToAlpha3 codes a2
  | none => none

/-- Input to `toAlpha2`/`toAlpha3`/`isValid` (`string | number`, with the
runtime also guarding against `null`/`undefined`). -/
inductive CodeInput where
  | istr (s : JStr)
  | inum (n : Int)
  | inull
  deriving DecidableEq

/-- Forward a `CodeInput` to the numeric conversions, as core.ts does by
passing `code` along unchanged. -/
def CodeInput.toNumInput : CodeInput → NumInput
  | .istr s => .nstr s
  | .inum n => .nnum n
  | .inull => .nnull

/-- core.ts `toAlpha3`: auto-detects the input format. -/
def toAlpha3 (codes : List CodeEntry) (code : CodeInput) : Option JStr :=
  match code with
  | .inull => none
  | .inum n => numericToAlpha3 codes (.nnum n)
  | .istr s =>
    if s.isEmpty then none
    else if isAllDigits s then numericToAlpha3 codes (.nstr s)
    else if s.length = 2 then alpha2ToAlpha3 codes (toUpperJS s)
    else if s.length = 3 then some (toUpperJS s)
    else none

/-- core.ts `toAlpha2`: auto-detects the input format. -/
def toAlpha2 (codes : List CodeEntry) (code : CodeInput) : Option JStr :=
  match code with
  | .inull => none
  | .inum n => numericToAlpha2 codes (.nnum n)
  | .istr s =>
    if s.isEmpty then none
    else if isAllDigits s then numericToAlpha2 codes (.nstr s)
    else if s.length = 2 then some (toUpperJS s)
    else if s.length = 3 then alpha3ToAlpha2 codes (toUpperJS s)
    else none

/-- JS truthiness `!!r` of a `string | undefined` result: `undefined` and
the empty string are falsy. -/
def truthyOpt : Option JStr → Bool
  | some s => !s.isEmpty
  | none => false

/-- core.ts `isValid`: `!!toAlpha2(code) || !!toAlpha3(code) ||
!!numericToAlpha2(code)` after the null/empty guard. -/
def isValid (codes : List CodeEntry) (code : CodeInput) : Bool :=
  match code with
  | .inull => false
  | .istr [] => false
  | c =>
    truthyOpt (toAlpha2 codes c) || truthyOpt (toAlpha3 codes c) ||
      truthyOpt (numericToAlpha2 codes c.toNumInput)

/-- The `locale` field of the dynamic argument of `registerLocale`, as far
as the runtime checks distinguish it: absent or `null` (falsy), a number,
a nested object, or an actual string. -/
inductive LocField where
  | locAbsent
  | locNull
  | locNum (n : Int)
  | locObj
  | locStr (s : JStr)
  deriving DecidableEq

/-- The `countries` field of the dynamic argument of `registerLocale`. -/
inductive CtrField where
  | ctrAbsent
  | ctrNull
  | ctrNum (n : Int)
  | ctrStr (s : JStr)
  | ctrObj (m : LocalizedCountryNames)
  deriving DecidableEq

/-- The dynamic argument of `registerLocale`: either not an object at all
(`null`, `undefined`, or a primitive), or an object with its two relevant
fields. -/
inductive LocaleArg where
  | notObject
  | obj (locale : LocField) (countries : CtrField)
  deriving DecidableEq

/-- core.ts `registerLocale`, with the mutable module state threaded
explicitly.  Returns the new registry and, when a `TypeError` is thrown,
its message; each `throw` exits with the registry untouched.  Note the
stored key is `localeData.locale` verbatim. -/
def registerLocale (ld : LocaleArg) (reg : Registry) : Registry × Option JStr :=
  match ld with
  | .notObject => (reg, some (str "localeData must be an object"))
  | .obj loc ctr =>
    match loc with
    | .locStr s =>
      if s.isEmpty then (reg, some (str "Missing or invalid localeData.locale"))
      else
        match ctr with
        | .ctrObj m => (objSet reg s m, none)
        | _ => (reg, some (str "Missing or invalid localeData.countries"))
    | _ => (reg, some (str "Missing or invalid localeData.locale"))

/-- core.ts `langs`: `Object.keys(_registeredLocales)`, insertion order. -/
def langs (reg : Registry) : List JStr := reg.map (fun p => p.1)

/-- core.ts `isValidLanguage` restricted to actual strings: non-empty. -/
def isValidLanguage (lang : JStr) : Bool := !lang.isEmpty

/-- The `select` option of `getName`. -/
inductive Select where
  | official
  | all
  | alias
  deriving DecidableEq

/-- core.ts `filterNameBy`. -/
def filterNameBy (type : Select) (countryNameList : CountryName) : CountryName :=
  match type, countryNameList with
  | .official, .single s => .single s
  | .official, .many l => .single ((l.get? 0).getD [])
  | .all, .single s => .many [s]
  | .all, .many l => .many l
  | .alias, .single s => .single s
  | .alias, .many l => .single ((l.get? 1).getD ((l.get? 0).getD []))

/-- core.ts `getName`.  The `!alpha2Code` and `!nameList` truthiness tests
are modelled faithfully: an empty-string alpha-2 result and an
empty-string stored name are falsy. -/
def getName (codes : List CodeEntry) (reg : Registry) (code : CodeInput)
    (lang : JStr) (select : Select) : Option CountryName :=
  if !isValidLanguage lang then none
  else
    match objGet reg (toLowerJS lang) with
    | none => none
    | some codeMaps =>
      match toAlpha2 codes code with
      | none => none
      | some alpha2Code =>
        if alpha2Code.isEmpty then none
        else
          match objGet codeMaps alpha2Code with
          | none => none
          | some nameList =>
            if falsyCountryName nameList then none
            else some (filterNameBy select nameList)

/-- The entry predicate of `searchCountryByName`'s `find` callback: a
stored value matches when it equals the normalized input, or, for an
array value, when some element does. -/
def nameMatches (normalize : JStr → JStr) (normalizedInput : JStr) :
    CountryName → Bool
  | .single v => normalize v == normalizedInput
  | .many l => l.any (fun n => normalize n == normalizedInput)

/-- core.ts `searchCountryByName`: scan `Object.entries` of the locale's
mapping in insertion order, matching any stored name (any element of an
array-valued entry) against the normalized input; yield the key of the
first matching entry. -/
def searchCountryByName (reg : Registry) (name : JStr) (lang : JStr)
    (normalize : JStr → JStr) : Option JStr :=
  if name.isEmpty || !isValidLanguage lang then none
  else
    match objGet reg (toLowerJS lang) with
    | none => none
    | some codenames =>
      (codenames.find? (fun p => nameMatches normalize (normalize name) p.2)).map
        (fun p => p.1)

/-- The `type` option of `getCode`. -/
inductive CodeType where
  | alpha2
  | alpha3
  deriving DecidableEq

/-- core.ts `getCode`.  The `diacritics` package's `remove` is an external
dependency, passed here as the parameter `removeDiacritics`.  The
truthiness test `!a2` is modelled faithfully. -/
def getCode (codes : List CodeEntry) (removeDiacritics : JStr → JStr)
    (reg : Registry) (name : JStr) (lang : JStr) (type : CodeType)
    (simple : Bool) : Option JStr :=
  let normalize := if simple then fun s => removeDiacritics (toLowerJS s)
    else toLowerJS
  match searchCountryByName reg name lang normalize with
  | none => none
  | some a2 =>
    if a2.isEmpty then none
    else match type with
      | .alpha2 => some a2
      | .alpha3 => toAlpha3 codes (.istr a2)

/-!
## Heap model for object sharing

`registerLocale` stores `localeData.countries` itself in the registry
(`[localeData.locale]: localeData.countries` copies the reference, not the
object).  To reason about later mutation of the caller's object we model
the JS heap explicitly: a `countries` object is a reference (index) into a
store of `LocalizedCountryNames`, the registry maps tags to references,
and queries read through the references.
-/

/-- A reference to a `countries` object on the heap. -/
abbrev ObjRef := Nat

/-- The heap of `countries` objects, indexed by `ObjRef`. -/
abbrev Heap := List LocalizedCountryNames

/-- The module state with sharing made explicit: the registry holds
references into the heap. -/
structure HeapState where
  heap : Heap
  reg : List (JStr × ObjRef)
  deriving DecidableEq

/-- The successful branch of `registerLocale` under the heap model: the
caller's reference itself is stored. -/
def registerLocaleRef (locale : JStr) (countries : ObjRef) (st : HeapState) :
    HeapState :=
  { st with reg := objSet st.reg locale countries }

/-- In-place mutation, by the caller, of the object behind `r`:
`obj[k] = v`. -/
def mutateCountries (r : ObjRef) (k : JStr) (v : CountryName) (st : HeapState) :
    HeapState :=
  { st with heap := st.heap.set r (objSet ((st.heap.get? r).getD []) k v) }

/-- The registry as the queries see it: each reference resolved against the
current heap. -/
def derefRegistry (st : HeapState) : Registry :=
  st.reg.map (fun p => (p.1, (st.heap.get? p.2).getD []))

/-- `getName` under the heap model. -/
def getNameH (codes : List CodeEntry) (st : HeapState) (code : CodeInput)
    (lang : JStr) (select : Select) : Option CountryName :=
  getName codes (derefRegistry st) code lang select

/-!
## Concrete data for witnesses and counterexamples
-/

/-- A two-entry excerpt of the code table, used to evaluate the theorems on
concrete inputs. -/
def sampleCodes : List CodeEntry :=
  [⟨str "ES", str "ESP", str "724"⟩, ⟨str "US", str "USA", str "840"⟩]

/-- Modelled from the spec: the invariants of the static Code Table
(`codes.json` is data external to the sources, §3 of the spec): every
entry's `alpha2` is a 2-letter upper-case code, its `alpha3` a 3-letter
upper-case code, and no two entries share an `alpha2` or an `alpha3`
value.  "Letter" is used only through its consequences: the code is fixed
by upper-casing and is not made of digits. -/
def GoodCodeTable (codes : List CodeEntry) : Prop :=
  (∀ e ∈ codes, e.a2.length = 2 ∧ toUpperJS e.a2 = e.a2 ∧ isAllDigits e.a2 = false) ∧
  (∀ e ∈ codes, e.a3.length = 3 ∧ toUpperJS e.a3 = e.a3 ∧ isAllDigits e.a3 = false) ∧
  (∀ e ∈ codes, ∀ e' ∈ codes, e.a2 = e'.a2 → e = e') ∧
  (∀ e ∈ codes, ∀ e' ∈ codes, e.a3 = e'.a3 → e = e')

instance : DecidablePred GoodCodeTable := fun codes => by
  unfold GoodCodeTable
  infer_instance

/-- Registry obtained by registering locale tag `"es"` and then tag `"ES"`
with different `countries` objects (the scenario of the spec's
replace-not-merge property). -/
def doubleCaseReg : Registry :=
  (registerLocale (.obj (.locStr (str "ES")) (.ctrObj [(str "ES", .single (str "segunda"))]))
    (registerLocale (.obj (.locStr (str "es")) (.ctrObj [(str "ES", .single (str "primera"))]))
      []).1).1

/-- A registered locale whose entry for `"ES"` stores the empty string. -/
def emptyNameReg : Registry := [(str "es", [(str "ES", CountryName.single [])])]

/-- Heap state holding one `countries` object (reference `0`) before any
registration. -/
def shareHeap0 : HeapState :=
  { heap := [[(str "ES", CountryName.single (str "original"))]], reg := [] }

/-- `shareHeap0` after `registerLocale({locale:"es", countries: obj0})`. -/
def shareRegistered : HeapState := registerLocaleRef (str "es") 0 shareHeap0

/-- `shareRegistered` after the caller mutates its own object:
`obj0["ES"] = "mutada"`. -/
def shareMutated : HeapState :=
  mutateCountries 0 (str "ES") (.single (str "mutada")) shareRegistered

/-- A Spanish locale registration used by several witnesses. -/
def esReg : Registry :=
  [(str "es",
    [(str "US", CountryName.many [str "Estados Unidos", str "EE. UU."]),
     (str "ES", CountryName.many [str "Espana", str "Reino de Espana"])])]

/-- The first validation condition of the claim: the record is a
structured (object) value. -/
def localeArgIsObject : LocaleArg → Bool
  | .notObject => false
  | .obj _ _ => true

/-- The second validation condition of the claim: the `locale` field is a
non-empty string. -/
def localeFieldNonEmptyString : LocaleArg → Bool
  | .obj (.locStr s) _ => !s.isEmpty
  | _ => false

/-- The third validation condition of the claim: the `countries` field is
a structured (object) value. -/
def countriesFieldIsObject : LocaleArg → Bool
  | .obj _ (.ctrObj _) => true
  | _ => false

/-!
## Helper lemmas
-/

lemma formatNumericCode_nstr (s : JStr) :
    formatNumericCode (.nstr s) = ('0' :: '0' :: '0' :: s).drop s.length := by
  have h : str "000" ++ s = '0' :: '0' :: '0' :: s := rfl
  have hl : ('0' :: '0' :: '0' :: s).length - 3 = s.length := by
    simp only [List.length_cons]
    omega
  simp only [formatNumericCode, takeRight3, numInputStr, h, hl]

lemma length_formatNumericCode_nstr (s : JStr) :
    (formatNumericCode (.nstr s)).length = 3 := by
  rw [formatNumericCode_nstr]
  simp only [List.length_drop, List.length_cons]
  omega

lemma formatNumericCode_of_length_three (t : JStr) (h : t.length = 3) :
    formatNumericCode (.nstr t) = t := by
  rw [formatNumericCode_nstr, h]
  rfl

lemma length_takeRight3 (s : JStr) (h : 3 ≤ s.length) :
    (takeRight3 s).length = 3 := by
  simp only [takeRight3, List.length_drop]
  omega

lemma formatNumericCode_of_three_le (s : JStr) (h : 3 ≤ s.length) :
    formatNumericCode (.nstr s) = takeRight3 s := by
  obtain ⟨k, hk⟩ : ∃ k, s.length = k + 3 := ⟨s.length - 3, by omega⟩
  have h2 : s.length - 3 = k := by omega
  rw [formatNumericCode_nstr, hk]
  show List.drop k s = takeRight3 s
  simp only [takeRight3, h2]

lemma numericToAlpha2_congr {codes : List CodeEntry} {c d : NumInput}
    (h : formatNumericCode c = formatNumericCode d) :
    numericToAlpha2 codes c = numericToAlpha2 codes d := by
  unfold numericToAlpha2
  rw [h]

lemma numericToAlpha3_congr {codes : List CodeEntry} {c d : NumInput}
    (h : formatNumericCode c = formatNumericCode d) :
    numericToAlpha3 codes c = numericToAlpha3 codes d := by
  unfold numericToAlpha3
  rw [numericToAlpha2_congr h]

lemma isEmpty_eq_false_of_ne_nil {α : Type} {l : List α} (h : l ≠ []) :
    l.isEmpty = false := by
  cases l with
  | nil => exact absurd rfl h
  | cons a t => rfl

lemma toUpper_of_isDigit {c : Char} (h : c.isDigit = true) : c.toUpper = c := by
  simp [Char.isDigit] at h
  simp [Char.toUpper, Char.isLower]
  intro h1 h2
  exfalso
  have h57 : c.toNat ≤ 57 := h.2
  omega

lemma toUpperJS_of_all_digits {s : JStr} (h : isAllDigits s = true) :
    toUpperJS s = s := by
  induction s with
  | nil => rfl
  | cons a t ih =>
    simp only [isAllDigits, List.all_cons, Bool.and_eq_true] at h
    simp only [isAllDigits] at ih
    simp only [toUpperJS, List.map_cons] at ih ⊢
    rw [toUpper_of_isDigit h.1, ih h.2]

lemma length_toUpperJS (s : JStr) : (toUpperJS s).length = s.length :=
  List.length_map s Char.toUpper

lemma find_eq_some_of_unique {α : Type} (p : α → Bool) (l : List α) (a : α)
    (ha : a ∈ l) (hp : p a = true)
    (huniq : ∀ b ∈ l, p b = true → b = a) :
    l.find? p = some a := by
  induction l with
  | nil => cases ha
  | cons b t ih =>
    by_cases hb : p b = true
    · have hba : b = a := huniq b (List.mem_cons_self b t) hb
      subst hba
      simp [List.find?, hb]
    · have hb' : p b = false := by
        cases hpb : p b
        · rfl
        · exact absurd hpb hb
      have hat : a ∈ t := by
        rcases List.mem_cons.mp ha with hab | hat
        · subst hab
          exact absurd hp hb
        · exact hat
      rw [List.find?_cons, hb']
      exact ih hat (fun c hc hpc => huniq c (List.mem_cons_of_mem b hc) hpc)

lemma alpha2ToAlpha3_self {codes : List CodeEntry} (h : GoodCodeTable codes)
    {e : CodeEntry} (he : e ∈ codes) :
    alpha2ToAlpha3 codes e.a2 = some e.a3 := by
  have hfix : toUpperJS e.a2 = e.a2 := ((h.1 e he).2).1
  have hfind : codes.find? (fun e' => e'.a2 == toUpperJS e.a2) = some e := by
    rw [hfix]
    refine find_eq_some_of_unique _ codes e he (by simp) ?_
    intro b hb hpb
    rw [beq_iff_eq] at hpb
    exact h.2.2.1 b hb e he hpb
  simp [alpha2ToAlpha3, hfind]

lemma alpha3ToAlpha2_self {codes : List CodeEntry} (h : GoodCodeTable codes)
    {e : CodeEntry} (he : e ∈ codes) :
    alpha3ToAlpha2 codes e.a3 = some e.a2 := by
  have hfix : toUpperJS e.a3 = e.a3 := ((h.2.1 e he).2).1
  have hfind : codes.find? (fun e' => e'.a3 == toUpperJS e.a3) = some e := by
    rw [hfix]
    refine find_eq_some_of_unique _ codes e he (by simp) ?_
    intro b hb hpb
    rw [beq_iff_eq] at hpb
    exact h.2.2.2 b hb e he hpb
  simp [alpha3ToAlpha2, hfind]

/-!
## Claims
-/

/-- C7: numeric codes are compared as exactly 3 characters left-padded with
`'0'`; a numeric value behaves identically whether given as a number, as its
unpadded decimal string, or zero-padded — in particular
`numericToAlpha2("9") = numericToAlpha2(9) = numericToAlpha2("009")`, for
every code table. -/
theorem numeric_code_zero_padding (codes : List CodeEntry) (n : Int) (s : JStr) :
    numericToAlpha2 codes (.nnum n) =
      numericToAlpha2 codes (.nstr ((toString n).data)) ∧
    numericToAlpha2 codes (.nstr s) =
      numericToAlpha2 codes (.nstr (formatNumericCode (.nstr s))) ∧
    numericToAlpha2 codes (.nstr (str "9")) = numericToAlpha2 codes (.nnum 9) ∧
    numericToAlpha2 codes (.nstr (str "9")) =
      numericToAlpha2 codes (.nstr (str "009")) := by
  refine ⟨rfl, ?_, ?_, ?_⟩
  · exact (numericToAlpha2_congr
      (formatNumericCode_of_length_three _ (length_formatNumericCode_nstr s))).symm
  · exact numericToAlpha2_congr (by decide)
  · exact numericToAlpha2_congr (by decide)

/-- C10: a numeric input whose decimal string has more than 3 characters is
cut down to its last 3 characters before the table lookup, so `"1724"` and
`1724` resolve exactly like `"724"`, for every code table. -/
theorem numeric_code_overflow_keeps_last_three (codes : List CodeEntry)
    (s : JStr) (h : 3 < s.length) :
    numericToAlpha2 codes (.nstr s) = numericToAlpha2 codes (.nstr (takeRight3 s)) ∧
    numericToAlpha3 codes (.nstr s) = numericToAlpha3 codes (.nstr (takeRight3 s)) ∧
    numericToAlpha2 codes (.nstr (str "1724")) =
      numericToAlpha2 codes (.nstr (str "724")) ∧
    numericToAlpha2 codes (.nnum 1724) = numericToAlpha2 codes (.nstr (str "724")) ∧
    numericToAlpha3 codes (.nnum 1724) = numericToAlpha3 codes (.nstr (str "724")) := by
  have hf : formatNumericCode (.nstr s) = formatNumericCode (.nstr (takeRight3 s)) := by
    rw [formatNumericCode_of_three_le s (by omega),
      formatNumericCode_of_length_three _ (length_takeRight3 s (by omega))]
  exact ⟨numericToAlpha2_congr hf, numericToAlpha3_congr hf,
    numericToAlpha2_congr (by decide), numericToAlpha2_congr (by decide),
    numericToAlpha3_congr (by decide)⟩

/-- Witness for C10 at the concrete input `"1724"`. -/
theorem numeric_code_overflow_keeps_last_three_witness :
    3 < (str "1724").length ∧
    numericToAlpha2 sampleCodes (.nstr (str "1724")) =
      numericToAlpha2 sampleCodes (.nstr (takeRight3 (str "1724"))) :=
  ⟨by decide,
    (numeric_code_overflow_keeps_last_three sampleCodes (str "1724") (by decide)).1⟩

/-- C1: evaluation of `registerLocale` at the claim's own scenario.  The
code stores the locale tag verbatim, so registering `"es"` and then `"ES"`
leaves two registry entries, `langs()` is `["es", "ES"]` (not `["es"]`
exactly once), the key `"es"` still holds the first registration's
mapping, and the second registration is unreachable: even a query passing
`lang = "ES"` is answered from the `"es"` entry, because every query
lower-cases its language argument. -/
theorem registry_key_not_lowercased :
    doubleCaseReg =
      [(str "es", [(str "ES", .single (str "primera"))]),
       (str "ES", [(str "ES", .single (str "segunda"))])] ∧
    langs doubleCaseReg = [str "es", str "ES"] ∧
    objGet doubleCaseReg (str "es") = some [(str "ES", .single (str "primera"))] ∧
    getName sampleCodes doubleCaseReg (.istr (str "ES")) (str "ES") .official =
      some (.single (str "primera")) := by
  decide

/-- C8: evaluation of the registry's sharing behaviour at a concrete
scenario.  `registerLocale` stores the caller's `countries` object itself
(reference copy); after the caller mutates that object, `getName` observes
the mutation, so the registered state is not an independent copy. -/
theorem registry_shares_caller_object :
    getNameH sampleCodes shareRegistered (.istr (str "ES")) (str "es") .official =
      some (.single (str "original")) ∧
    getNameH sampleCodes shareMutated (.istr (str "ES")) (str "es") .official =
      some (.single (str "mutada")) ∧
    getNameH sampleCodes shareMutated (.istr (str "ES")) (str "es") .official ≠
      getNameH sampleCodes shareRegistered (.istr (str "ES")) (str "es") .official := by
  decide

/-- C4 counterexample: a registered entry whose stored value is the empty
string.  The Alpha-2 key `"ES"` is present in the locale's mapping and the
claim's selection filter maps the stored value to itself, yet `getName`
returns not-found (the `!nameList` truthiness test rejects the empty
string), contradicting the claim's "otherwise it applies the selection
filter to the stored value". -/
theorem getName_empty_string_value_cex :
    objGet [(str "ES", CountryName.single [])] (str "ES") =
      some (CountryName.single []) ∧
    filterNameBy .official (CountryName.single []) = CountryName.single [] ∧
    getName sampleCodes emptyNameReg (.istr (str "ES")) (str "es") .official ≠
      some (filterNameBy .official (CountryName.single [])) ∧
    getName sampleCodes emptyNameReg (.istr (str "ES")) (str "es") .official =
      none := by
  decide

/-- C9: `isValid` is true for every string of length exactly 2 or exactly 3
that is not all digits, for every code table — the length-matching
passthrough of `toAlpha2` (length 2) or `toAlpha3` (length 3) succeeds
without consulting the table. -/
theorem isValid_length_passthrough (codes : List CodeEntry) (s : JStr)
    (hlen : s.length = 2 ∨ s.length = 3) (hd : isAllDigits s = false) :
    isValid codes (.istr s) = true := by
  cases s with
  | nil => simp at hlen
  | cons a t =>
    rcases hlen with h2 | h3
    · have hta : toAlpha2 codes (.istr (a :: t)) = some (toUpperJS (a :: t)) := by
        simp [toAlpha2, hd, h2]
      simp [isValid, hta, truthyOpt, toUpperJS]
    · have hne2 : (a :: t).length ≠ 2 := by omega
      have hta : toAlpha3 codes (.istr (a :: t)) = some (toUpperJS (a :: t)) := by
        simp [toAlpha3, hd, h3, hne2]
      simp [isValid, hta, truthyOpt, toUpperJS]

/-- Witness for C9 at the concrete inputs `"XX"` and `"ZZZ"`, which appear
nowhere in the table. -/
theorem isValid_length_passthrough_witness :
    ((str "XX").length = 2 ∨ (str "XX").length = 3) ∧
    isAllDigits (str "XX") = false ∧
    isValid sampleCodes (.istr (str "XX")) = true ∧
    ((str "ZZZ").length = 2 ∨ (str "ZZZ").length = 3) ∧
    isAllDigits (str "ZZZ") = false ∧
    isValid sampleCodes (.istr (str "ZZZ")) = true :=
  ⟨Or.inl (by decide), by decide,
    isValid_length_passthrough sampleCodes (str "XX") (Or.inl (by decide)) (by decide),
    Or.inr (by decide), by decide,
    isValid_length_passthrough sampleCodes (str "ZZZ") (Or.inr (by decide)) (by decide)⟩

/-- C2: the format auto-detection of `toAlpha2` and `toAlpha3` on string
input: null/undefined/empty yields not-found; an all-digit string is
resolved through the numeric table; a 2-character string is returned
upper-cased by `toAlpha2` without lookup but resolves through the table
for `toAlpha3`; a 3-character string is returned upper-cased by `toAlpha3`
but resolves through the table for `toAlpha2`; any other length yields
not-found. -/
theorem toAlpha_dispatch (codes : List CodeEntry) (s : JStr) :
    toAlpha2 codes .inull = none ∧ toAlpha3 codes .inull = none ∧
    toAlpha2 codes (.istr []) = none ∧ toAlpha3 codes (.istr []) = none ∧
    (s ≠ [] → isAllDigits s = true →
      toAlpha2 codes (.istr s) = numericToAlpha2 codes (.nstr s) ∧
      toAlpha3 codes (.istr s) = numericToAlpha3 codes (.nstr s)) ∧
    (isAllDigits s = false → s.length = 2 →
      toAlpha2 codes (.istr s) = some (toUpperJS s) ∧
      toAlpha3 codes (.istr s) = alpha2ToAlpha3 codes (toUpperJS s)) ∧
    (isAllDigits s = false → s.length = 3 →
      toAlpha3 codes (.istr s) = some (toUpperJS s) ∧
      toAlpha2 codes (.istr s) = alpha3ToAlpha2 codes (toUpperJS s)) ∧
    (isAllDigits s = false → s.length ≠ 2 → s.length ≠ 3 →
      toAlpha2 codes (.istr s) = none ∧ toAlpha3 codes (.istr s) = none) := by
  refine ⟨rfl, rfl, rfl, rfl, ?_, ?_, ?_, ?_⟩
  · intro hne hd
    cases s with
    | nil => exact absurd rfl hne
    | cons a t => exact ⟨by simp [toAlpha2, hd], by simp [toAlpha3, hd]⟩
  · intro hd h2
    cases s with
    | nil => simp at h2
    | cons a t => exact ⟨by simp [toAlpha2, hd, h2], by simp [toAlpha3, hd, h2]⟩
  · intro hd h3
    cases s with
    | nil => simp at h3
    | cons a t =>
      have hne2 : (a :: t).length ≠ 2 := by omega
      exact ⟨by simp [toAlpha3, hd, h3, hne2], by simp [toAlpha2, hd, h3, hne2]⟩
  · intro hd h2 h3
    cases s with
    | nil => simp [isAllDigits] at hd
    | cons a t =>
      have hl : (a :: t).length = t.length + 1 := rfl
      have ht1 : t.length ≠ 1 := by omega
      have ht2 : t.length ≠ 2 := by omega
      exact ⟨by simp [toAlpha2, hd, ht1, ht2], by simp [toAlpha3, hd, ht1, ht2]⟩

/-- Witness for C2: a 2-letter input and an all-digit input against the
sample table. -/
theorem toAlpha_dispatch_witness :
    isAllDigits (str "es") = false ∧ (str "es").length = 2 ∧
    toAlpha2 sampleCodes (.istr (str "es")) = some (toUpperJS (str "es")) ∧
    toAlpha3 sampleCodes (.istr (str "es")) =
      alpha2ToAlpha3 sampleCodes (toUpperJS (str "es")) ∧
    str "724" ≠ [] ∧ isAllDigits (str "724") = true ∧
    toAlpha2 sampleCodes (.istr (str "724")) =
      numericToAlpha2 sampleCodes (.nstr (str "724")) := by
  refine ⟨by decide, by decide, ?_, ?_, by decide, by decide, ?_⟩
  · exact ((toAlpha_dispatch sampleCodes (str "es")).2.2.2.2.2.1 (by decide) (by decide)).1
  · exact ((toAlpha_dispatch sampleCodes (str "es")).2.2.2.2.2.1 (by decide) (by decide)).2
  · exact ((toAlpha_dispatch sampleCodes (str "724")).2.2.2.2.1 (by decide) (by decide)).1

/-- C3: `registerLocale` signals a validation error (a thrown `TypeError`,
distinct from a not-found result) exactly when the record is not an
object, or its `locale` field is not a non-empty string, or its
`countries` field is not an object; on error the registry is unchanged —
in particular `registerLocale({})` fails and preserves the registry. -/
theorem registerLocale_validation (ld : LocaleArg) (reg : Registry) :
    ((registerLocale ld reg).2.isSome ↔
      localeArgIsObject ld = false ∨ localeFieldNonEmptyString ld = false ∨
        countriesFieldIsObject ld = false) ∧
    ((registerLocale ld reg).2.isSome → (registerLocale ld reg).1 = reg) ∧
    registerLocale (.obj .locAbsent .ctrAbsent) reg =
      (reg, some (str "Missing or invalid localeData.locale")) := by
  refine ⟨?_, ?_, rfl⟩
  · cases ld with
    | notObject =>
      simp [registerLocale, localeArgIsObject]
    | obj loc ctr =>
      cases loc with
      | locStr s =>
        cases s with
        | nil =>
          simp [registerLocale, localeArgIsObject, localeFieldNonEmptyString]
        | cons a t =>
          cases ctr <;>
            simp [registerLocale, localeArgIsObject, localeFieldNonEmptyString,
              countriesFieldIsObject]
      | locAbsent => simp [registerLocale, localeFieldNonEmptyString]
      | locNull => simp [registerLocale, localeFieldNonEmptyString]
      | locNum n => simp [registerLocale, localeFieldNonEmptyString]
      | locObj => simp [registerLocale, localeFieldNonEmptyString]
  · cases ld with
    | notObject => intro _; rfl
    | obj loc ctr =>
      cases loc with
      | locStr s =>
        cases s with
        | nil => intro _; rfl
        | cons a t => cases ctr <;> simp [registerLocale]
      | locAbsent => intro _; rfl
      | locNull => intro _; rfl
      | locNum n => intro _; rfl
      | locObj => intro _; rfl

/-- Witness for C3: `registerLocale({})` on a one-locale registry errors
and leaves the registry as it was. -/
theorem registerLocale_validation_witness :
    (registerLocale (.obj .locAbsent .ctrAbsent) [(str "en", [])]).2.isSome = true ∧
    (registerLocale (.obj .locAbsent .ctrAbsent) [(str "en", [])]).1 =
      [(str "en", [])] :=
  ⟨by decide,
    (registerLocale_validation (.obj .locAbsent .ctrAbsent) [(str "en", [])]).2.1
      (by decide)⟩

/-- C4 (amended): `getName` returns not-found — never an exception — when
`lang` is empty, the lower-cased locale is unregistered, `toAlpha2` fails,
the Alpha-2 key is absent from the locale's mapping, or the stored value
is the empty string; otherwise it applies the selection filter:
`official` takes element 0 of a sequence (empty string for an empty
sequence) and leaves a plain string unchanged, `all` wraps a plain string
as a one-element sequence and leaves a sequence unchanged, `alias` takes
element 1 of a sequence, falling back to element 0, then to the empty
string, and leaves a plain string unchanged. -/
theorem getName_characterization (codes : List CodeEntry) (reg : Registry)
    (code : CodeInput) (lang : JStr) (select : Select) :
    (lang = [] → getName codes reg code lang select = none) ∧
    (objGet reg (toLowerJS lang) = none →
      getName codes reg code lang select = none) ∧
    (toAlpha2 codes code = none → getName codes reg code lang select = none) ∧
    (lang ≠ [] → ∀ m, objGet reg (toLowerJS lang) = some m →
      ∀ a2, toAlpha2 codes code = some a2 → a2 ≠ [] →
        (objGet m a2 = none → getName codes reg code lang select = none) ∧
        (objGet m a2 = some (CountryName.single []) →
          getName codes reg code lang select = none) ∧
        (∀ v, objGet m a2 = some v → falsyCountryName v = false →
          getName codes reg code lang select = some (filterNameBy select v))) ∧
    (∀ s, filterNameBy .official (.single s) = .single s) ∧
    (∀ x l, filterNameBy .official (.many (x :: l)) = .single x) ∧
    filterNameBy .official (.many []) = .single [] ∧
    (∀ s, filterNameBy .all (.single s) = .many [s]) ∧
    (∀ l, filterNameBy .all (.many l) = .many l) ∧
    (∀ x y l, filterNameBy .alias (.many (x :: y :: l)) = .single y) ∧
    (∀ x, filterNameBy .alias (.many [x]) = .single x) ∧
    filterNameBy .alias (.many []) = .single [] ∧
    (∀ s, filterNameBy .alias (.single s) = .single s) := by
  refine ⟨?_, ?_, ?_, ?_, fun s => rfl, fun x l => rfl, rfl, fun s => rfl,
    fun l => rfl, fun x y l => rfl, fun x => rfl, rfl, fun s => rfl⟩
  · intro h
    subst h
    rfl
  · intro h
    cases hv : isValidLanguage lang <;> simp [getName, h, hv]
  · intro h
    cases hv : isValidLanguage lang <;>
      cases hg : objGet reg (toLowerJS lang) <;> simp [getName, h, hv, hg]
  · intro hlang m hm a2 ha2 hne
    have hv : isValidLanguage lang = true := by
      simp [isValidLanguage, isEmpty_eq_false_of_ne_nil hlang]
    have he : a2.isEmpty = false := isEmpty_eq_false_of_ne_nil hne
    refine ⟨?_, ?_, ?_⟩
    · intro hg
      simp [getName, hv, hm, ha2, he, hg]
    · intro hg
      simp [getName, hv, hm, ha2, he, hg, falsyCountryName]
    · intro v hg hfals
      simp [getName, hv, hm, ha2, he, hg, hfals]

/-- Witness for C4 at the concrete `alias` query of the spec's example
scenario. -/
theorem getName_characterization_witness :
    getName sampleCodes esReg (.istr (str "ES")) (str "es") .alias =
      some (.single (str "Reino de Espana")) := by
  have h := ((getName_characterization sampleCodes esReg (.istr (str "ES"))
      (str "es") .alias).2.2.2.1 (by decide)
      [(str "US", CountryName.many [str "Estados Unidos", str "EE. UU."]),
       (str "ES", CountryName.many [str "Espana", str "Reino de Espana"])]
      (by decide) (str "ES") (by decide) (by decide)).2.2
      (CountryName.many [str "Espana", str "Reino de Espana"]) (by decide) (by decide)
  rw [h]
  rfl

/-- C5: `getCode` returns not-found for an empty name, an empty language,
or an unregistered locale; otherwise (for a registered mapping whose keys
are genuine, non-empty Alpha-2 codes) it scans the locale's entries in
insertion order, comparing every stored name — every element of a
sequence-valued entry — for exact equality with the search name after
normalization (lower-casing, plus diacritic stripping when `simple`), and
returns the key of the first matching entry, converted via `toAlpha3` when
the requested type is `alpha3`; not-found when no entry matches. -/
theorem getCode_scan (codes : List CodeEntry) (rd : JStr → JStr)
    (reg : Registry) (name lang : JStr) (ty : CodeType) (simple : Bool) :
    (name = [] → getCode codes rd reg name lang ty simple = none) ∧
    (lang = [] → getCode codes rd reg name lang ty simple = none) ∧
    (objGet reg (toLowerJS lang) = none →
      getCode codes rd reg name lang ty simple = none) ∧
    (name ≠ [] → lang ≠ [] →
      ∀ m, objGet reg (toLowerJS lang) = some m → (∀ p ∈ m, p.1 ≠ []) →
        getCode codes rd reg name lang ty simple =
          match m.find? (fun p => nameMatches
              (if simple then fun s => rd (toLowerJS s) else toLowerJS)
              ((if simple then fun s => rd (toLowerJS s) else toLowerJS) name)
              p.2) with
          | none => none
          | some p =>
            match ty with
            | .alpha2 => some p.1
            | .alpha3 => toAlpha3 codes (.istr p.1)) := by
  refine ⟨?_, ?_, ?_, ?_⟩
  · intro h
    subst h
    rfl
  · intro h
    subst h
    cases hn : name.isEmpty <;> simp [getCode, searchCountryByName, hn, isValidLanguage]
  · intro h
    cases hn : name.isEmpty <;> cases hv : isValidLanguage lang <;>
      simp [getCode, searchCountryByName, h, hn, hv]
  · intro hname hlang m hm hkeys
    have hn : name.isEmpty = false := isEmpty_eq_false_of_ne_nil hname
    have hv : isValidLanguage lang = true := by
      simp [isValidLanguage, isEmpty_eq_false_of_ne_nil hlang]
    cases hf : m.find? (fun p => nameMatches
        (if simple then fun s => rd (toLowerJS s) else toLowerJS)
        ((if simple then fun s => rd (toLowerJS s) else toLowerJS) name) p.2) with
    | none => simp [getCode, searchCountryByName, hn, hv, hm, hf]
    | some p =>
      have hp : p ∈ m := List.mem_of_find?_eq_some hf
      have hpe : p.1.isEmpty = false := isEmpty_eq_false_of_ne_nil (hkeys p hp)
      cases ty <;> simp [getCode, searchCountryByName, hn, hv, hm, hf, hpe]

/-- Witness for C5: searching the registered Spanish locale for
`"estados unidos"` with `type = alpha3`, language given upper-cased. -/
theorem getCode_scan_witness :
    getCode sampleCodes id esReg (str "estados unidos") (str "ES") .alpha3 false =
      some (str "USA") := by
  have h := (getCode_scan sampleCodes id esReg (str "estados unidos") (str "ES")
      .alpha3 false).2.2.2 (by decide) (by decide)
      [(str "US", CountryName.many [str "Estados Unidos", str "EE. UU."]),
       (str "ES", CountryName.many [str "Espana", str "Reino de Espana"])]
      (by decide) (by decide)
  rw [h]
  rfl

/-- C6: over any table satisfying the spec's Code Table invariants, the
alpha-2/alpha-3 conversions are mutually inverse on the table's entries,
and normalization round-trips: `toAlpha2 (toAlpha3 code) = code.toUpperCase()`
for every string whose upper-casing is an alpha-2 value of the table. -/
theorem code_table_round_trips (codes : List CodeEntry)
    (h : GoodCodeTable codes) :
    (∀ e ∈ codes,
      (alpha3ToAlpha2 codes e.a3).bind (fun y => alpha2ToAlpha3 codes y) =
        some e.a3 ∧
      (alpha2ToAlpha3 codes e.a2).bind (fun y => alpha3ToAlpha2 codes y) =
        some e.a2) ∧
    (∀ s : JStr, (∃ e ∈ codes, toUpperJS s = e.a2) →
      (toAlpha3 codes (.istr s)).bind (fun y => toAlpha2 codes (.istr y)) =
        some (toUpperJS s)) := by
  constructor
  · intro e he
    rw [alpha3ToAlpha2_self h he, alpha2ToAlpha3_self h he]
    constructor
    · show alpha2ToAlpha3 codes e.a2 = some e.a3
      exact alpha2ToAlpha3_self h he
    · show alpha3ToAlpha2 codes e.a3 = some e.a2
      exact alpha3ToAlpha2_self h he
  · intro s hs
    obtain ⟨e, he, hup⟩ := hs
    have hlen2 : s.length = 2 := by
      rw [← length_toUpperJS, hup]
      exact (h.1 e he).1
    have hsne : s.isEmpty = false := by
      cases s with
      | nil => simp at hlen2
      | cons a t => rfl
    have hsd : isAllDigits s = false := by
      cases hd : isAllDigits s
      · rfl
      · exfalso
        have : s = e.a2 := by rw [← hup, toUpperJS_of_all_digits hd]
        rw [this] at hd
        rw [(h.1 e he).2.2] at hd
        cases hd
    have h3 : toAlpha3 codes (.istr s) = some e.a3 := by
      have : alpha2ToAlpha3 codes (toUpperJS s) = some e.a3 := by
        rw [hup]
        exact alpha2ToAlpha3_self h he
      simp [toAlpha3, hsne, hsd, hlen2, this]
    rw [h3]
    show toAlpha2 codes (.istr e.a3) = some (toUpperJS s)
    have h3len : e.a3.length = 3 := (h.2.1 e he).1
    have h3ne : e.a3.isEmpty = false := by
      cases hc : e.a3 with
      | nil => rw [hc] at h3len; simp at h3len
      | cons a t => rfl
    have h3ne2 : e.a3.length ≠ 2 := by omega
    have h2 : alpha3ToAlpha2 codes (toUpperJS e.a3) = some e.a2 := by
      rw [(h.2.1 e he).2.1]
      exact alpha3ToAlpha2_self h he
    have h3d : isAllDigits e.a3 = false := (h.2.1 e he).2.2
    rw [hup]
    simp [toAlpha2, h3ne, h3d, h3ne2, h3len, h2]

/-- Witness for C6 at the sample table: the `"ESP"` round trip and the
normalization round trip for the lower-cased alpha-2 input `"es"`. -/
theorem code_table_round_trips_witness :
    GoodCodeTable sampleCodes ∧
    (alpha3ToAlpha2 sampleCodes (str "ESP")).bind
      (fun y => alpha2ToAlpha3 sampleCodes y) = some (str "ESP") ∧
    (toAlpha3 sampleCodes (.istr (str "es"))).bind
      (fun y => toAlpha2 sampleCodes (.istr y)) = some (toUpperJS (str "es")) := by
  have hg : GoodCodeTable sampleCodes := by decide
  refine ⟨hg, ?_, ?_⟩
  · exact ((code_table_round_trips sampleCodes hg).1
      ⟨str "ES", str "ESP", str "724"⟩ (by decide)).1
  · exact (code_table_round_trips sampleCodes hg).2 (str "es")
      ⟨⟨str "ES", str "ESP", str "724"⟩, by decide, by decide⟩

end Iso
